import Mathlib

/-!
Verification development for the datashading pipeline described by the
repository specification.  The repository ships a single example notebook
(`examples/nyc_taxi.ipynb`) that drives an external point-aggregation and
rendering library; the pipeline itself (Canvas binning, reduction
aggregation, transfer functions, compositing, interactive driver) is not
implemented in the repository sources, so every pipeline component below is
modelled from the specification text and the notebook code is modelled on
top of those components.

Real-valued data coordinates and color channels are embedded as rational
numbers, so all arithmetic is exact and every definition is executable.
-/

attribute [local semireducible] Rat.sub Rat.add Rat.mul Rat.inv

namespace Datashade

/-- Modelled from the spec: a Canvas holds the output raster pixel
dimensions and the data-space rectangle it covers (section 3, "Canvas:
(width, height, x_range, y_range)").  The construction-time validity
checks live in `mkCanvas`. -/
structure Canvas where
  width : ℕ
  height : ℕ
  x_min : ℚ
  x_max : ℚ
  y_min : ℚ
  y_max : ℚ
  deriving DecidableEq, Repr

/-- Modelled from the spec: the Canvas invariant, "width, height > 0;
x_range/y_range are non-degenerate ordered pairs (min < max)". -/
def Canvas.Valid (c : Canvas) : Prop :=
  0 < c.width ∧ 0 < c.height ∧ c.x_min < c.x_max ∧ c.y_min < c.y_max

instance (c : Canvas) : Decidable c.Valid := by
  unfold Canvas.Valid; infer_instance

/-- Modelled from the spec: error taxonomy of section 7. -/
inductive PipeError where
  | invalidRangeError
  | emptyGridError
  | shapeMismatchError
  deriving DecidableEq, Repr

/-- Modelled from the spec: Canvas construction "fails with
InvalidRangeError if x_min >= x_max or y_min >= y_max, or
width/height <= 0" (section 4.1); pixel dimensions arrive as integers so
that nonpositive requests are expressible. -/
def mkCanvas (w h : ℤ) (xmin xmax ymin ymax : ℚ) : Except PipeError Canvas :=
  if xmin ≥ xmax ∨ ymin ≥ ymax ∨ w ≤ 0 ∨ h ≤ 0 then
    .error .invalidRangeError
  else
    .ok ⟨w.toNat, h.toNat, xmin, xmax, ymin, ymax⟩

/-- Modelled from the spec: the one-axis bin formula of section 4.1,
`floor((t - lo) / (hi - lo) * n)` clamped to `[0, n-1]`. -/
def binIdx (lo hi : ℚ) (n : ℕ) (t : ℚ) : ℤ :=
  min ((n : ℤ) - 1) (max 0 ⌊(t - lo) / (hi - lo) * (n : ℚ)⌋)

/-- Modelled from the spec: mapping a data-space point to its bin
(section 4.1).  Points outside the closed data-space rectangle are
discarded: they get no bin at all, by explicit policy rather than by
truncation. -/
def binOf (c : Canvas) (x y : ℚ) : Option (ℤ × ℤ) :=
  if c.x_min ≤ x ∧ x ≤ c.x_max ∧ c.y_min ≤ y ∧ y ≤ c.y_max then
    some (binIdx c.x_min c.x_max c.width x, binIdx c.y_min c.y_max c.height y)
  else
    none

/-- Modelled from the spec: a Point Record (section 3) reduced to the
coordinate pair consumed by the binning stage; the auxiliary numeric
fields of a record are supplied separately as a value function where a
reduction needs them. -/
abbrev Point := ℚ × ℚ

/-- Modelled from the spec: one cell of the aggregation pass of
section 4.2 for an arbitrary commutative-monoid reduction.  The cell at
bin `b` accumulates `val p` over every point whose bin is `b`. -/
def aggBin {M : Type} [AddCommMonoid M] (c : Canvas) (val : Point → M)
    (ps : List Point) (b : ℤ × ℤ) : M :=
  ((ps.filter (fun p => binOf c p.1 p.2 = some b)).map val).sum

/-- Modelled from the spec: the count reduction of section 4.2. -/
def countBin (c : Canvas) (ps : List Point) (b : ℤ × ℤ) : ℕ :=
  aggBin c (fun _ => 1) ps b

/-- Modelled from the spec: the Aggregate Grid of a count aggregation,
laid out row-major as a flat list of the width*height bin values
(section 3, "a width×height array of reduction values"). -/
def countGrid (c : Canvas) (ps : List Point) : List ℕ :=
  (List.range (c.height * c.width)).map
    (fun k => countBin c ps ((k % c.width : ℕ), (k / c.width : ℕ)))

/-- Helper: filtering a joined list of lists filters each piece. -/
theorem filter_flatten_eq (p : Point → Bool) (L : List (List Point)) :
    L.flatten.filter p = (L.map (fun l => l.filter p)).flatten := by
  induction L with
  | nil => rfl
  | cons l L ih => simp [List.filter_append, ih]

/-- Helper: `aggBin` is invariant under permutation of the input points. -/
theorem aggBin_perm {M : Type} [AddCommMonoid M] (c : Canvas) (val : Point → M)
    {ps qs : List Point} (h : ps.Perm qs) (b : ℤ × ℤ) :
    aggBin c val ps b = aggBin c val qs b :=
  List.Perm.sum_eq (List.Perm.map val (List.Perm.filter _ h))

/-- Helper: `aggBin` splits over list concatenation. -/
theorem aggBin_append {M : Type} [AddCommMonoid M] (c : Canvas) (val : Point → M)
    (ps qs : List Point) (b : ℤ × ℤ) :
    aggBin c val (ps ++ qs) b = aggBin c val ps b + aggBin c val qs b := by
  simp [aggBin, List.filter_append]


/-- C2: aggregating a partition of the input shard-by-shard and merging the
shard grids cell-by-cell with the reduction gives the same grid cell values
as one aggregation pass over the whole input, for every commutative-monoid
reduction and every cell. -/
theorem sharded_aggregation_eq_single_pass {M : Type} [AddCommMonoid M]
    (c : Canvas) (val : Point → M) (shards : List (List Point)) (ps : List Point)
    (hpart : shards.flatten.Perm ps) (b : ℤ × ℤ) :
    (shards.map (fun s => aggBin c val s b)).sum = aggBin c val ps b := by
  rw [← aggBin_perm c val hpart b]
  clear hpart
  induction shards with
  | nil => rfl
  | cons s L ih => simp [List.flatten, aggBin_append, ih]

/-- C2 witness: splitting three concrete points into two shards (in swapped
order) and merging the two count grids reproduces the single-pass counts. -/
theorem sharded_aggregation_witness :
    ([[((3:ℚ)/2, (1:ℚ)/2)], [(1/2, 1/2), (1/2, 1/2)]].map
        (fun s => aggBin (M := ℕ) ⟨2, 1, 0, 2, 0, 1⟩ (fun _ => 1) s (0, 0))).sum =
      aggBin ⟨2, 1, 0, 2, 0, 1⟩ (fun _ => 1)
        [(1/2, 1/2), (1/2, 1/2), (3/2, 1/2)] (0, 0) :=
  sharded_aggregation_eq_single_pass ⟨2, 1, 0, 2, 0, 1⟩ (fun _ => 1)
    [[(3/2, 1/2)], [(1/2, 1/2), (1/2, 1/2)]]
    [(1/2, 1/2), (1/2, 1/2), (3/2, 1/2)] (by decide) (0, 0)

/-- C9: the spec example; a 2 by 1 canvas over `[0,2] x [0,1]` with points
`(0.5,0.5), (0.5,0.5), (1.5,0.5)` and the count reduction yields the
aggregate grid `[2, 1]`. -/
theorem example_grid_two_one :
    countGrid ⟨2, 1, 0, 2, 0, 1⟩ [(1/2, 1/2), (1/2, 1/2), (3/2, 1/2)] = [2, 1] := by
  decide

/-- C6: Canvas construction fails with InvalidRangeError exactly when
`x_min >= x_max` or `y_min >= y_max` or `width <= 0` or `height <= 0`, and
every successfully constructed Canvas has positive pixel dimensions and
strictly ordered coordinate ranges. -/
theorem mkCanvas_invalid_iff (w h : ℤ) (xmin xmax ymin ymax : ℚ) :
    (mkCanvas w h xmin xmax ymin ymax = .error .invalidRangeError ↔
      (xmin ≥ xmax ∨ ymin ≥ ymax ∨ w ≤ 0 ∨ h ≤ 0)) ∧
    (∀ c : Canvas, mkCanvas w h xmin xmax ymin ymax = .ok c → c.Valid) := by
  unfold mkCanvas
  by_cases hcond : xmin ≥ xmax ∨ ymin ≥ ymax ∨ w ≤ 0 ∨ h ≤ 0
  · rw [if_pos hcond]
    refine ⟨⟨fun _ => hcond, fun _ => rfl⟩, fun c hc => ?_⟩
    cases hc
  · rw [if_neg hcond]
    refine ⟨⟨fun hc => (by cases hc), fun hh => absurd hh hcond⟩, fun c hc => ?_⟩
    cases hc
    push_neg at hcond
    obtain ⟨h1, h2, h3, h4⟩ := hcond
    refine ⟨show 0 < w.toNat from ?_, show 0 < h.toNat from ?_, h1, h2⟩ <;> omega

/-- C6 witness: a 0-width request over a degenerate x-range is rejected
with InvalidRangeError, and the canvas built from an 800 by 500 request
over proper ranges satisfies the Canvas invariant. -/
theorem mkCanvas_invalid_iff_witness :
    mkCanvas 0 500 0 1 0 1 = .error .invalidRangeError ∧
      Canvas.Valid ⟨800, 500, 0, 1, 0, 1⟩ :=
  ⟨(mkCanvas_invalid_iff 0 500 0 1 0 1).1.2 (by decide),
   (mkCanvas_invalid_iff 800 500 0 1 0 1).2 ⟨800, 500, 0, 1, 0, 1⟩ rfl⟩

/-- C1: a point whose coordinates lie inside the canvas x and y ranges is
assigned the bin `floor((x - x_min) / (x_max - x_min) * width)` clamped to
`[0, width-1]` (and the analogous y bin); a point outside the ranges gets
no bin and contributes to no cell of any aggregation. -/
theorem point_bin_assignment_and_discard (c : Canvas) (_hv : c.Valid) (x y : ℚ) :
    ((c.x_min ≤ x ∧ x ≤ c.x_max ∧ c.y_min ≤ y ∧ y ≤ c.y_max) →
      binOf c x y = some
        (min ((c.width : ℤ) - 1)
          (max 0 ⌊(x - c.x_min) / (c.x_max - c.x_min) * (c.width : ℚ)⌋),
         min ((c.height : ℤ) - 1)
          (max 0 ⌊(y - c.y_min) / (c.y_max - c.y_min) * (c.height : ℚ)⌋))) ∧
    (¬(c.x_min ≤ x ∧ x ≤ c.x_max ∧ c.y_min ≤ y ∧ y ≤ c.y_max) →
      binOf c x y = none ∧ ∀ b : ℤ × ℤ, countBin c [(x, y)] b = 0) := by
  constructor
  · intro hin
    simp [binOf, hin, binIdx]
  · intro hout
    have hb : binOf c x y = none := by simp [binOf, hout]
    refine ⟨hb, fun b => ?_⟩
    simp [countBin, aggBin, List.filter, hb]

/-- C1 witness: on the 2 by 1 canvas over `[0,2] x [0,1]`, the in-range
point `(0.5, 0.5)` lands in bin `(0,0)`, while the out-of-range point
`(3, 0.5)` gets no bin and is counted nowhere. -/
theorem point_bin_assignment_witness :
    binOf ⟨2, 1, 0, 2, 0, 1⟩ (1/2) (1/2) = some (0, 0) ∧
      (binOf ⟨2, 1, 0, 2, 0, 1⟩ 3 (1/2) = none ∧
        ∀ b : ℤ × ℤ, countBin ⟨2, 1, 0, 2, 0, 1⟩ [(3, 1/2)] b = 0) := by
  constructor
  · have hm :=
      (point_bin_assignment_and_discard ⟨2, 1, 0, 2, 0, 1⟩ (by decide) (1/2) (1/2)).1
        (by decide)
    rw [hm]
    decide
  · exact
      (point_bin_assignment_and_discard ⟨2, 1, 0, 2, 0, 1⟩ (by decide) 3 (1/2)).2
        (by decide)

/-- Modelled from the spec: an RGBA pixel of an Image (section 3), with
premultiplied-alpha rational channels so that compositing is exact. -/
structure RGBA where
  r : ℚ
  g : ℚ
  b : ℚ
  a : ℚ
  deriving DecidableEq, Repr

/-- Modelled from the spec: the fully transparent pixel that no-data cells
map to (section 4.3). -/
def transparent : RGBA := ⟨0, 0, 0, 0⟩

/-- Modelled from the spec: an Aggregate Grid cell is either no-data or a
reduction value (section 4.2 tri-state), flattened row-major. -/
abbrev Grid := List (Option ℚ)

/-- The non-no-data cell values of a grid, in grid order. -/
def gridVals (g : Grid) : List ℚ := g.filterMap id

/-- Look up a colormap color, clamping the index into the colormap. -/
def applyCmap (cmap : List RGBA) (i : ℕ) : RGBA :=
  cmap.getD (min i (cmap.length - 1)) transparent

/-- Modelled from the spec: the Transfer Function of section 4.3,
parametrized by the scaling mode mapping the non-no-data values and one
cell value to a colormap index.  All-no-data grids fail with
EmptyGridError; no-data cells map to the fully transparent pixel. -/
def interpolate (scale : List ℚ → ℚ → ℕ) (g : Grid) (cmap : List RGBA) :
    Except PipeError (List RGBA) :=
  if (gridVals g).isEmpty then
    .error .emptyGridError
  else
    .ok (g.map (fun cell =>
      match cell with
      | none => transparent
      | some v => applyCmap cmap (scale (gridVals g) v)))

/-- C5: the Transfer Function raises EmptyGridError exactly when every cell
of the grid is no-data, and whenever it produces an image, every no-data
cell of the grid comes out as the fully transparent pixel. -/
theorem interpolate_empty_iff_and_nodata_transparent
    (scale : List ℚ → ℚ → ℕ) (g : Grid) (cmap : List RGBA) :
    (interpolate scale g cmap = .error .emptyGridError ↔ ∀ cell ∈ g, cell = none) ∧
    (∀ img, interpolate scale g cmap = .ok img →
      ∀ k : ℕ, g[k]? = some none → img[k]? = some transparent) := by
  have hiff : (gridVals g).isEmpty = true ↔ ∀ cell ∈ g, cell = none := by
    rw [List.isEmpty_iff, gridVals, List.filterMap_eq_nil_iff]
    simp
  unfold interpolate
  by_cases hemp : (gridVals g).isEmpty = true
  · rw [if_pos hemp]
    exact ⟨⟨fun _ => hiff.mp hemp, fun _ => rfl⟩, fun img himg => (by cases himg)⟩
  · rw [if_neg hemp]
    refine ⟨⟨fun hc => (by cases hc), fun hall => absurd (hiff.mpr hall) hemp⟩,
      fun img himg k hk => ?_⟩
    cases himg
    rw [List.getElem?_map, hk]
    rfl

/-- C5 witness: the all-no-data 2-cell grid raises EmptyGridError, and on
the grid `[no-data, 7]` the no-data cell renders fully transparent. -/
theorem interpolate_empty_witness :
    (interpolate (fun _ _ => 0) [none, none] [⟨1, 1, 1, 1⟩] = .error .emptyGridError) ∧
      ((interpolate (fun _ _ => 0) [none, some 7] [⟨1, 1, 1, 1⟩]).map
          (fun img => img[0]?) = .ok (some transparent)) := by
  constructor
  · exact (interpolate_empty_iff_and_nodata_transparent
      (fun _ _ => 0) [none, none] [⟨1, 1, 1, 1⟩]).1.2 (by decide)
  · have h2 := (interpolate_empty_iff_and_nodata_transparent
      (fun _ _ => 0) [none, some 7] [⟨1, 1, 1, 1⟩]).2
      [transparent, ⟨1, 1, 1, 1⟩] rfl 0 (by decide)
    have hok : interpolate (fun _ _ => 0) [none, some 7] [⟨1, 1, 1, 1⟩] =
        .ok [transparent, ⟨1, 1, 1, 1⟩] := rfl
    rw [hok]
    exact congrArg Except.ok h2

/-- Modelled from the spec: the eq_hist colormap index of a value is its
empirical percentile rank among the non-no-data cell values, realized as
the number of those values strictly below it (section 4.3). -/
def eqHistIdx (vs : List ℚ) (v : ℚ) : ℕ :=
  vs.countP (fun w => decide (w < v))

/-- Modelled from the spec: histogram equalization of an Aggregate Grid;
every non-no-data cell is replaced by its eq_hist colormap index and
no-data cells stay no-data (section 4.3). -/
def eqHist (g : Grid) : List (Option ℕ) :=
  g.map (Option.map (eqHistIdx (gridVals g)))

/-- Helper: the eq_hist index is strictly monotone on values present in the
value list. -/
theorem eqHistIdx_lt_of_mem_lt {vs : List ℚ} {a b : ℚ} (ha : a ∈ vs) (hab : a < b) :
    eqHistIdx vs a < eqHistIdx vs b := by
  unfold eqHistIdx
  induction vs with
  | nil => cases ha
  | cons x xs ih =>
    rw [List.countP_cons, List.countP_cons]
    rcases List.mem_cons.mp ha with hax | hmem
    · subst hax
      have hmono : xs.countP (fun w => decide (w < a)) ≤
          xs.countP (fun w => decide (w < b)) :=
        List.countP_mono_left (fun y _ hy => by
          simp only [decide_eq_true_eq] at hy ⊢
          exact lt_trans hy hab)
      simp only [decide_eq_true_eq]
      rw [if_neg (lt_irrefl a), if_pos hab]
      omega
    · have hstep := ih hmem
      have hcase : (if decide (x < a) = true then 1 else 0) ≤
          (if decide (x < b) = true then 1 else 0) := by
        by_cases hx : x < a
        · have hxb : x < b := lt_trans hx hab
          simp [hx, hxb]
        · simp [hx]
      omega

/-- Helper: the eq_hist index of a present value is below the number of
values. -/
theorem eqHistIdx_lt_length {vs : List ℚ} {a : ℚ} (ha : a ∈ vs) :
    eqHistIdx vs a < vs.length := by
  unfold eqHistIdx
  rcases Nat.lt_or_ge (vs.countP fun w => decide (w < a)) vs.length with h | h
  · exact h
  · exfalso
    have heq : vs.countP (fun w => decide (w < a)) = vs.length :=
      le_antisymm (List.countP_le_length _) h
    have hlt := List.countP_eq_length.mp heq a ha
    simp at hlt

/-- Helper: over duplicate-free values, the multiset of eq_hist indices is
exactly `0, 1, ..., n-1`. -/
theorem eqHistIdx_perm_range {vs : List ℚ} (hnd : vs.Nodup) :
    (vs.map (eqHistIdx vs)).Perm (List.range vs.length) := by
  have hinj : ∀ x ∈ vs, ∀ y ∈ vs, eqHistIdx vs x = eqHistIdx vs y → x = y := by
    intro x hx y hy hxy
    rcases lt_trichotomy x y with h | h | h
    · exact absurd hxy (Nat.ne_of_lt (eqHistIdx_lt_of_mem_lt hx h))
    · exact h
    · exact absurd hxy.symm (Nat.ne_of_lt (eqHistIdx_lt_of_mem_lt hy h))
  have hnd2 : (vs.map (eqHistIdx vs)).Nodup := List.Nodup.map_on hinj hnd
  apply List.perm_of_nodup_nodup_toFinset_eq hnd2 (List.nodup_range _)
  apply Finset.eq_of_subset_of_card_le
  · intro j hj
    rw [List.mem_toFinset] at hj ⊢
    rcases List.mem_map.mp hj with ⟨v, hv, rfl⟩
    exact List.mem_range.mpr (eqHistIdx_lt_length hv)
  · rw [List.toFinset_card_of_nodup hnd2, List.toFinset_card_of_nodup (List.nodup_range _)]
    simp

/-- C3: on a grid with at least one non-no-data cell, eq_hist gives every
non-no-data cell the index counting the non-no-data values strictly below
it (its empirical percentile rank); the index is strictly increasing in
the cell value, equal values get the identical index, and without ties
every colormap index `0..n-1` is used by exactly one cell, a uniform
histogram. -/
theorem eq_hist_percentile_rank (g : Grid) (_hne : gridVals g ≠ []) :
    (∀ k : ℕ, ∀ v : ℚ, g[k]? = some (some v) →
        (eqHist g)[k]? = some (some ((gridVals g).countP (fun w => decide (w < v))))) ∧
    (∀ v w : ℚ, v ∈ gridVals g → w ∈ gridVals g → v < w →
        eqHistIdx (gridVals g) v < eqHistIdx (gridVals g) w) ∧
    (∀ v w : ℚ, v = w → eqHistIdx (gridVals g) v = eqHistIdx (gridVals g) w) ∧
    ((gridVals g).Nodup → ∀ j < (gridVals g).length,
        ((gridVals g).map (eqHistIdx (gridVals g))).count j = 1) := by
  refine ⟨?_, ?_, ?_, ?_⟩
  · intro k v hk
    rw [eqHist, List.getElem?_map, hk]
    rfl
  · intro v w hv hw hvw
    exact eqHistIdx_lt_of_mem_lt hv hvw
  · intro v w hvw
    rw [hvw]
  · intro hnd j hj
    rw [List.Perm.count_eq (eqHistIdx_perm_range hnd) j]
    exact List.count_eq_one_of_mem (List.nodup_range _) (List.mem_range.mpr hj)

/-- C3 witness: on the grid `[5, no-data, 1, 3]` the cell holding 5 gets
index 2 (two values lie below it), and with the three distinct values the
index 0 is used exactly once. -/
theorem eq_hist_witness :
    (eqHist [some 5, none, some 1, some 3])[0]? = some (some 2) ∧
      ((gridVals [some 5, none, some 1, some 3]).map
          (eqHistIdx (gridVals [some 5, none, some 1, some 3]))).count 0 = 1 := by
  constructor
  · have h1 := (eq_hist_percentile_rank [some 5, none, some 1, some 3]
      (by decide)).1 0 5 (by decide)
    rw [h1]
    decide
  · exact (eq_hist_percentile_rank [some 5, none, some 1, some 3]
      (by decide)).2.2.2 (by decide) 0 (by decide)

/-- Modelled from the spec: standard over-compositing of one pixel drawn
above another, on premultiplied-alpha channels (section 4.4). -/
def pixOver (below above : RGBA) : RGBA :=
  ⟨above.r + below.r * (1 - above.a),
   above.g + below.g * (1 - above.a),
   above.b + below.b * (1 - above.a),
   above.a + below.a * (1 - above.a)⟩

/-- Modelled from the spec: `stack` alpha-composites the second image over
the first using standard over-compositing (section 4.4). -/
def stack (base top : List RGBA) : List RGBA :=
  List.zipWith pixOver base top

/-- Helper: over-compositing of pixels is associative. -/
theorem pixOver_assoc (x y z : RGBA) :
    pixOver (pixOver x y) z = pixOver x (pixOver y z) := by
  unfold pixOver
  rw [RGBA.mk.injEq]
  refine ⟨by ring, by ring, by ring, by ring⟩

/-- Helper: zipping with over-compositing is associative on whole lists. -/
theorem zipWith_pixOver_assoc (a : List RGBA) :
    ∀ b c : List RGBA,
      List.zipWith pixOver (List.zipWith pixOver a b) c =
        List.zipWith pixOver a (List.zipWith pixOver b c) := by
  induction a with
  | nil => intro b c; rfl
  | cons x xs ih =>
    intro b c
    cases b with
    | nil => rfl
    | cons y ys =>
      cases c with
      | nil => rfl
      | cons z zs => simp [List.zipWith, pixOver_assoc, ih]

/-- C7: for images of identical shape, `stack` is associative pixel for
pixel: compositing `c` over the composite of `b` over `a` equals
compositing the composite of `c` over `b` over `a`. -/
theorem stack_assoc (a b c : List RGBA)
    (_hab : a.length = b.length) (_hbc : b.length = c.length) :
    stack (stack a b) c = stack a (stack b c) := by
  unfold stack
  exact zipWith_pixOver_assoc a b c

/-- C7 witness: associativity instantiated at three concrete one-pixel
images of equal shape. -/
theorem stack_assoc_witness :
    stack (stack [⟨1, 0, 0, 1⟩] [⟨0, 1, 0, 1/2⟩]) [⟨0, 0, 1, 1/3⟩] =
      stack [⟨1, 0, 0, 1⟩] (stack [⟨0, 1, 0, 1/2⟩] [⟨0, 0, 1, 1/3⟩]) :=
  stack_assoc [⟨1, 0, 0, 1⟩] [⟨0, 1, 0, 1/2⟩] [⟨0, 0, 1, 1/3⟩] rfl rfl

/-- Number of non-transparent pixels of an image. -/
def nonTransparentCount (img : List RGBA) : ℕ :=
  img.countP (fun px => decide (px.a ≠ 0))

/-- Fraction of non-transparent pixels of an image. -/
def nonTransparentFrac (img : List RGBA) : ℚ :=
  (nonTransparentCount img : ℚ) / (img.length : ℚ)

/-- Chebyshev nearness of two flat row-major pixel indices of an image of
width `w`: the row and column distances are both at most `r`. -/
def chebNear (w r k k2 : ℕ) : Bool :=
  decide (((k / w : ℕ) : ℤ) - ((k2 / w : ℕ) : ℤ) ≤ r) &&
  decide (((k2 / w : ℕ) : ℤ) - ((k / w : ℕ) : ℤ) ≤ r) &&
  decide (((k % w : ℕ) : ℤ) - ((k2 % w : ℕ) : ℤ) ≤ r) &&
  decide (((k2 % w : ℕ) : ℤ) - ((k % w : ℕ) : ℤ) ≤ r)

/-- Modelled from the spec: one output pixel of the spread pass; a
non-transparent pixel is kept, a transparent one takes the first
non-transparent pixel within Chebyshev radius `r`, if any (section 4.4). -/
def spreadPx (w : ℕ) (img : List RGBA) (r k : ℕ) : RGBA :=
  let cur := img.getD k transparent
  if cur.a = 0 then
    match (List.range img.length).find?
        (fun k2 => chebNear w r k k2 &&
          decide ((img.getD k2 transparent).a ≠ 0)) with
    | some k2 => img.getD k2 transparent
    | none => cur
  else cur

/-- Modelled from the spec: growing every non-transparent pixel of an image
of width `w` into a surrounding square of radius `r` (section 4.4). -/
def spread (w : ℕ) (img : List RGBA) (r : ℕ) : List RGBA :=
  (List.range img.length).map (spreadPx w img r)

/-- Modelled from the spec: `dynspread` spreads with radius `max_px` when
the fraction of non-transparent pixels is below `threshold` and otherwise
returns the image unchanged (section 4.4). -/
def dynspread (w : ℕ) (img : List RGBA) (threshold : ℚ) (maxPx : ℕ) : List RGBA :=
  if nonTransparentFrac img < threshold then spread w img maxPx else img

/-- C8: when the non-transparent fraction of an image reaches the
threshold, `dynspread` returns the image unchanged at every pixel; when the
fraction is below the threshold, every pixel within Chebyshev radius
`max_px` of a non-transparent pixel is non-transparent in the output, so
each non-transparent pixel grows into its surrounding square. -/
theorem dynspread_threshold_spec (w : ℕ) (img : List RGBA) (threshold : ℚ) (maxPx : ℕ) :
    (threshold ≤ nonTransparentFrac img → dynspread w img threshold maxPx = img) ∧
    (nonTransparentFrac img < threshold →
      ∀ k k2 : ℕ, k < img.length → k2 < img.length →
        chebNear w maxPx k k2 = true → (img.getD k2 transparent).a ≠ 0 →
          ((dynspread w img threshold maxPx).getD k transparent).a ≠ 0) := by
  constructor
  · intro hge
    unfold dynspread
    rw [if_neg (not_lt.mpr hge)]
  · intro hlt k k2 hk hk2 hnear hdata
    unfold dynspread
    rw [if_pos hlt]
    have hgd : (spread w img maxPx).getD k transparent = spreadPx w img maxPx k := by
      rw [spread, List.getD_eq_getElem?_getD, List.getElem?_map,
        List.getElem?_range hk]
      rfl
    rw [hgd]
    unfold spreadPx
    by_cases hcur : (img.getD k transparent).a = 0
    · rw [if_pos hcur]
      have hex : ∃ x ∈ List.range img.length,
          (chebNear w maxPx k x &&
            decide ((img.getD x transparent).a ≠ 0)) = true :=
        ⟨k2, List.mem_range.mpr hk2, by
          rw [hnear, Bool.true_and, decide_eq_true_eq]
          exact hdata⟩
      obtain ⟨j, hjfind⟩ :=
        Option.isSome_iff_exists.mp (List.find?_isSome.mpr hex)
      rw [hjfind]
      have hpred := List.find?_some hjfind
      simp only [Bool.and_eq_true, decide_eq_true_eq] at hpred
      exact hpred.2
    · rw [if_neg hcur]
      exact hcur

/-- C8 witness: an image that is 80 percent non-transparent is returned
unchanged at threshold one half, while in a 10 by 10 image with a single
non-transparent pixel (1 percent) the neighbor one cell away becomes
non-transparent. -/
theorem dynspread_threshold_witness :
    dynspread 1 [⟨1, 1, 1, 1⟩, ⟨1, 1, 1, 1⟩, ⟨1, 1, 1, 1⟩, ⟨1, 1, 1, 1⟩, transparent]
        (1/2) 4 =
      [⟨1, 1, 1, 1⟩, ⟨1, 1, 1, 1⟩, ⟨1, 1, 1, 1⟩, ⟨1, 1, 1, 1⟩, transparent] ∧
    ((dynspread 10
        (List.replicate 55 transparent ++ ⟨1, 1, 1, 1⟩ :: List.replicate 44 transparent)
        (1/2) 4).getD 44 transparent).a ≠ 0 := by
  constructor
  · exact (dynspread_threshold_spec 1
      [⟨1, 1, 1, 1⟩, ⟨1, 1, 1, 1⟩, ⟨1, 1, 1, 1⟩, ⟨1, 1, 1, 1⟩, transparent]
      (1/2) 4).1 (by decide)
  · exact (dynspread_threshold_spec 10
      (List.replicate 55 transparent ++ ⟨1, 1, 1, 1⟩ :: List.replicate 44 transparent)
      (1/2) 4).2 (by decide) 44 55 (by decide) (by decide) (by decide) (by decide)

/-- Modelled from the spec: a Viewport, the data-space rectangle and pixel
resolution requested by the display surface (section 3). -/
structure Viewport where
  x_min : ℚ
  x_max : ℚ
  y_min : ℚ
  y_max : ℚ
  width : ℕ
  height : ℕ
  deriving DecidableEq, Repr

/-- Modelled from the spec: the Interactive Driver of section 4.5 as a
state machine that is either Idle or Rendering a viewport. -/
inductive DriverState where
  | idle
  | rendering (v : Viewport)
  deriving DecidableEq, Repr

/-- Modelled from the spec: events reaching the Interactive Driver; a
Viewport-change from the host surface or completion of the in-flight
render. -/
inductive DriverEvent where
  | viewportChange (v : Viewport)
  | renderComplete
  deriving DecidableEq, Repr

/-- Modelled from the spec: one Interactive Driver transition (section
4.5); a Viewport change while Rendering cancels the in-flight render and
re-renders the latest viewport only, and a completion emits the image for
the viewport being rendered. -/
def driverStep : DriverState → DriverEvent → DriverState × List Viewport
  | .idle, .viewportChange v => (.rendering v, [])
  | .rendering _, .viewportChange v => (.rendering v, [])
  | .rendering v, .renderComplete => (.idle, [v])
  | .idle, .renderComplete => (.idle, [])

/-- The driver processing an event sequence, collecting the viewports of
all emitted images in order. -/
def driverRun : DriverState → List DriverEvent → DriverState × List Viewport
  | s, [] => (s, [])
  | s, e :: es =>
    ((driverRun (driverStep s e).1 es).1,
      (driverStep s e).2 ++ (driverRun (driverStep s e).1 es).2)

/-- Helper: the driver run splits over concatenation of event sequences. -/
theorem driverRun_append (s : DriverState) (l1 l2 : List DriverEvent) :
    driverRun s (l1 ++ l2) =
      ((driverRun (driverRun s l1).1 l2).1,
        (driverRun s l1).2 ++ (driverRun (driverRun s l1).1 l2).2) := by
  induction l1 generalizing s with
  | nil => simp [driverRun]
  | cons e es ih => simp [driverRun, ih]

/-- C4: a Viewport change to `v2` arriving while `v1` renders cancels the
in-flight render (the state moves to Rendering `v2` with nothing emitted),
and any event history ending with the change to `v1`, the superseding
change to `v2` and the completion emits exactly the earlier images plus an
image for `v2`: none for the superseded `v1`. -/
theorem driver_last_request_wins (pre : List DriverEvent) (v1 v2 : Viewport) :
    driverStep (.rendering v1) (.viewportChange v2) = (.rendering v2, []) ∧
    driverRun .idle
        (pre ++ [.viewportChange v1, .viewportChange v2, .renderComplete]) =
      (.idle, (driverRun .idle pre).2 ++ [v2]) := by
  refine ⟨rfl, ?_⟩
  rw [driverRun_append]
  have hsuffix : ∀ s : DriverState,
      driverRun s [.viewportChange v1, .viewportChange v2, .renderComplete] =
        (.idle, [v2]) := by
    intro s; cases s <;> rfl
  rw [hsuffix]

/-- The `where`-mask of the notebook: keep a cell of the first count grid
only where it strictly exceeds the second, no-data elsewhere. -/
def maskGT (g1 g2 : List ℕ) : Grid :=
  List.zipWith (fun (d p : ℕ) => if p < d then some ((d : ℚ)) else none) g1 g2

/-- The stacked two-layer image of the notebook function `merged_images`:
dropoff counts masked to cells with more dropoffs than pickups, pickup
counts masked to cells with more pickups than dropoffs, each rendered by
the Transfer Function, and the dropoff layer composited over the pickup
layer. -/
def mergedStacked (c : Canvas) (pickups dropoffs : List Point)
    (scale : List ℚ → ℚ → ℕ) (cmapPick cmapDrop : List RGBA) :
    Except PipeError (List RGBA) :=
  match interpolate scale (maskGT (countGrid c pickups) (countGrid c dropoffs)) cmapPick,
      interpolate scale (maskGT (countGrid c dropoffs) (countGrid c pickups)) cmapDrop with
  | .ok morePicks, .ok moreDrops => .ok (stack morePicks moreDrops)
  | .error e, _ => .error e
  | .ok _, .error e => .error e

/-- The notebook function `merged_images`: the stacked two-layer image
post-processed by `dynspread` with threshold 0.1 and max_px 4. -/
def mergedImages (c : Canvas) (pickups dropoffs : List Point)
    (scale : List ℚ → ℚ → ℕ) (cmapPick cmapDrop : List RGBA) :
    Except PipeError (List RGBA) :=
  (mergedStacked c pickups dropoffs scale cmapPick cmapDrop).map
    (fun img => dynspread c.width img (1/10) 4)

/-- Helper: an index lemma for `zipWith`. -/
theorem getElem?_zipWith_of_some {α β γ : Type} (f : α → β → γ) :
    ∀ (a : List α) (b : List β) (k : ℕ) (x : α) (y : β),
      a[k]? = some x → b[k]? = some y → (List.zipWith f a b)[k]? = some (f x y) := by
  intro a
  induction a with
  | nil => intro b k x y hx; cases hx
  | cons a0 as ih =>
    intro b k x y hx hy
    cases b with
    | nil => cases hy
    | cons b0 bs =>
      cases k with
      | zero =>
        rw [List.getElem?_cons_zero] at hx hy
        cases hx; cases hy
        rw [List.zipWith_cons_cons, List.getElem?_cons_zero]
      | succ k =>
        rw [List.getElem?_cons_succ] at hx hy
        rw [List.zipWith_cons_cons, List.getElem?_cons_succ]
        exact ih bs k x y hx hy

/-- Helper: whenever the Transfer Function produces an image, each no-data
grid cell comes out as the fully transparent pixel. -/
theorem interpolate_ok_nodata {scale : List ℚ → ℚ → ℕ} {g : Grid} {cmap : List RGBA}
    {img : List RGBA} (himg : interpolate scale g cmap = .ok img)
    {k : ℕ} (hk : g[k]? = some none) : img[k]? = some transparent := by
  unfold interpolate at himg
  by_cases hemp : (gridVals g).isEmpty = true
  · rw [if_pos hemp] at himg; cases himg
  · rw [if_neg hemp] at himg
    cases himg
    rw [List.getElem?_map, hk]
    rfl

/-- C10: in `merged_images`, a pixel bin whose pickup count equals its
dropoff count is excluded by both strict-inequality masks, so whenever the
stacked output image exists that bin is a fully transparent pixel. -/
theorem merged_images_tied_bin_transparent (c : Canvas)
    (pickups dropoffs : List Point) (scale : List ℚ → ℚ → ℕ)
    (cmapPick cmapDrop : List RGBA) (k : ℕ)
    (hk : k < (countGrid c pickups).length)
    (htie : (countGrid c pickups).getD k 0 = (countGrid c dropoffs).getD k 0) :
    ∀ img, mergedStacked c pickups dropoffs scale cmapPick cmapDrop = .ok img →
      img[k]? = some transparent := by
  intro img himg
  have hklen2 : k < (countGrid c dropoffs).length := by
    have : (countGrid c pickups).length = (countGrid c dropoffs).length := by
      simp [countGrid]
    omega
  have hpk : (countGrid c pickups)[k]? = some ((countGrid c pickups).getD k 0) := by
    rw [List.getD_eq_getElem?_getD, List.getElem?_eq_getElem hk]
    rfl
  have hdk : (countGrid c dropoffs)[k]? = some ((countGrid c dropoffs).getD k 0) := by
    rw [List.getD_eq_getElem?_getD, List.getElem?_eq_getElem hklen2]
    rfl
  have hmask1 : (maskGT (countGrid c pickups) (countGrid c dropoffs))[k]? = some none := by
    rw [maskGT, getElem?_zipWith_of_some _ _ _ _ _ _ hpk hdk, htie, if_neg (lt_irrefl _)]
  have hmask2 : (maskGT (countGrid c dropoffs) (countGrid c pickups))[k]? = some none := by
    rw [maskGT, getElem?_zipWith_of_some _ _ _ _ _ _ hdk hpk, htie, if_neg (lt_irrefl _)]
  unfold mergedStacked at himg
  cases hp : interpolate scale (maskGT (countGrid c pickups) (countGrid c dropoffs)) cmapPick with
  | error e => rw [hp] at himg; cases himg
  | ok imgP =>
    cases hd : interpolate scale (maskGT (countGrid c dropoffs) (countGrid c pickups)) cmapDrop with
    | error e => rw [hp, hd] at himg; cases himg
    | ok imgD =>
      rw [hp, hd] at himg
      cases himg
      have htp : imgP[k]? = some transparent := interpolate_ok_nodata hp hmask1
      have htd : imgD[k]? = some transparent := interpolate_ok_nodata hd hmask2
      rw [stack, getElem?_zipWith_of_some _ _ _ _ _ _ htp htd]
      have : pixOver transparent transparent = transparent := by decide
      rw [this]

/-- C10 witness: on a 3 by 1 canvas with one pickup in bin 0 and one
dropoff in bin 2, bin 1 ties at zero pickups and zero dropoffs and comes
out fully transparent in the stacked image. -/
theorem merged_images_tied_bin_witness :
    mergedStacked ⟨3, 1, 0, 3, 0, 1⟩ [(1/2, 1/2)] [(5/2, 1/2)] (fun _ _ => 0)
        [⟨1, 0, 0, 1⟩] [⟨0, 0, 1, 1⟩] =
      .ok [⟨1, 0, 0, 1⟩, transparent, ⟨0, 0, 1, 1⟩] ∧
    ([⟨1, 0, 0, 1⟩, transparent, ⟨0, 0, 1, 1⟩] : List RGBA)[1]? = some transparent := by
  have hok : mergedStacked ⟨3, 1, 0, 3, 0, 1⟩ [(1/2, 1/2)] [(5/2, 1/2)] (fun _ _ => 0)
      [⟨1, 0, 0, 1⟩] [⟨0, 0, 1, 1⟩] =
        .ok [⟨1, 0, 0, 1⟩, transparent, ⟨0, 0, 1, 1⟩] := by rfl
  exact ⟨hok, merged_images_tied_bin_transparent ⟨3, 1, 0, 3, 0, 1⟩ [(1/2, 1/2)]
    [(5/2, 1/2)] (fun _ _ => 0) [⟨1, 0, 0, 1⟩] [⟨0, 0, 1, 1⟩] 1
    (by decide) (by decide) [⟨1, 0, 0, 1⟩, transparent, ⟨0, 0, 1, 1⟩] hok⟩
